import Mathlib

/-!
Verification development for the biodiversity-explorer repository.

The Ecological Metrics Engine is embedded shallowly:

* Python dict histograms become association lists; dict keys can be either
  strings or integers, which matters for the habitat-fraction lookups, so keys
  are modelled by the sum type `PyKey`.
* Python floats are modelled by exact rationals where the computation is
  field arithmetic, and by real numbers where logarithms appear.
* Python code that can raise (division by zero, KeyError when labeling) is
  modelled with `Option`: `none` is a raised exception.
* The planar idealization of the delegated geometry operations (area,
  centroid, point buffer, bounds) is used for the AOI area governor; the
  actual computation is delegated to the external Raster Compute Service.
-/

namespace BioDiv

/-- A Python value used as a dictionary key: a string or an integer.
Real histograms delivered by the raster service are keyed by decimal strings
such as "10"; integer keys are also representable because the habitat-fraction
lookups are sensitive to the key form. -/
inductive PyKey where
  | s (v : String)
  | i (v : Int)
deriving DecidableEq

/-- True exactly on integer-formed keys. -/
def PyKey.isInt : PyKey → Bool
  | .i _ => true
  | .s _ => false

/-- A class/rating histogram: a Python dict, as an association list. -/
abbrev Hist := List (PyKey × ℚ)

/-- First-match association-list lookup, the model of Python dict access
(a dict has no duplicate keys, so first match is the match). -/
def alookup {κ β : Type} [DecidableEq κ] (k : κ) : List (κ × β) → Option β
  | [] => none
  | e :: t => if e.1 = k then some e.2 else alookup k t

/-- Python `counts.get(k, 0)`. -/
def getD (h : Hist) (k : PyKey) : ℚ := (alookup k h).getD 0

/-- Sum of a histogram's values, Python `sum(counts.values())`. -/
def valsSum (h : Hist) : ℚ := (h.map Prod.snd).sum

/-- Python division: raises `ZeroDivisionError` on a zero denominator
(for floats as well as ints), modelled by `none`. -/
def pydiv (a b : ℚ) : Option ℚ := if b = 0 then none else some (a / b)

/-- Accumulating decimal-digit parser over the characters of a string. -/
def parseDigits (acc : Nat) : List Char → Option Nat
  | [] => some acc
  | c :: t => if c.isDigit then parseDigits (acc * 10 + (c.toNat - 48)) t else none

/-- Python `int(s)` on a string: an optional sign followed by at least one
decimal digit; anything else raises (`none`). -/
def pystrToInt (s : String) : Option Int :=
  match s.data with
  | [] => none
  | '-' :: t => if t = [] then none else (parseDigits 0 t).map (fun n => -(n : Int))
  | l => (parseDigits 0 l).map (fun n => (n : Int))

/-- Python `int(k)` applied to a dict key: an integer key is itself, a string
key is parsed as a decimal integer (raising on failure). -/
def pyint : PyKey → Option Int
  | .i n => some n
  | .s v => pystrToInt v

/-! ## src/metrics/landcover_metrics.py -/

/-- The fixed 11-entry land-cover legend `landcover_classes`. -/
def landcover_classes : List (Int × String) :=
  [(10, "Tree cover"), (20, "Shrubland"), (30, "Grassland"), (40, "Cropland"),
   (50, "Built-up"), (60, "Sparse vegetation"), (70, "Snow and ice"),
   (80, "Permanent water"), (90, "Herbaceous wetland"), (95, "Mangroves"),
   (100, "Moss and lichen")]

/-- `landcover_classes[int(cls)]`: coerce the key to an integer and look it up
in the closed legend; `none` models the raised ValueError/KeyError. -/
def legendLookup (k : PyKey) : Option String :=
  (pyint k).bind (fun n => alookup n landcover_classes)

/-- The list `[count / total for count in counts.values()]`; raises
(`none`) as soon as a division by a zero total is attempted, which happens
exactly when the histogram is non-empty with total 0. -/
def proportions (h : Hist) : Option (List ℚ) :=
  (h.map Prod.snd).foldr
    (fun c acc => (pydiv c (valsSum h)).bind (fun p => acc.map (fun ps => p :: ps)))
    (some [])

/-- `get_shannon_index`: `-sum(p * log p for p in proportions if p > 0)`. -/
noncomputable def get_shannon_index (h : Hist) : Option ℝ :=
  (proportions h).map
    (fun ps => -((ps.filter (fun p => 0 < p)).map
      (fun p => (Rat.cast p : ℝ) * Real.log (Rat.cast p))).sum)

/-- `get_simpson_index`: `1 - sum(p ** 2 for p in proportions)`. -/
def get_simpson_index (h : Hist) : Option ℚ :=
  (proportions h).map (fun ps => 1 - (ps.map (fun p => p ^ 2)).sum)

/-- `get_evenness_index`: `len(counts)` classes (zero-count entries
included), Shannon is computed unconditionally first, then divided by
`log(len(counts))` when `len(counts) > 1`, else the sentinel 0. -/
noncomputable def get_evenness_index (h : Hist) : Option ℝ :=
  (get_shannon_index h).map
    (fun sh => if 1 < h.length then sh / Real.log (h.length : ℝ) else 0)

/-- The `natural_classes` list. -/
def natural_classes : List Nat := [10, 20, 30, 90, 95, 100]

/-- The `anthropogenic_classes` list. -/
def anthropogenic_classes : List Nat := [40, 50, 60, 70, 80]

/-- `get_natural_habitat_fraction`: sums `counts.get(str(cls), 0)` over the
natural classes — the lookup key is the decimal STRING form — and divides by
the total, with a guard returning 0 on a zero total. -/
def get_natural_habitat_fraction (h : Hist) : ℚ :=
  let natural_count := (natural_classes.map
    (fun cls => getD h (PyKey.s (toString cls)))).sum
  let total := valsSum h
  if 0 < total then natural_count / total else 0

/-- `get_anthropogenic_habitat_fraction`: same shape over the anthropogenic
classes, string-form lookups, guarded division. -/
def get_anthropogenic_habitat_fraction (h : Hist) : ℚ :=
  let anthro_count := (anthropogenic_classes.map
    (fun cls => getD h (PyKey.s (toString cls)))).sum
  let total := valsSum h
  if 0 < total then anthro_count / total else 0

/-- Stable descending insertion by count: the model of
`sorted(counts.items(), key=lambda x: x[1], reverse=True)`. -/
def insertDesc (x : PyKey × ℚ) : Hist → Hist
  | [] => [x]
  | y :: t => if y.2 ≤ x.2 then x :: y :: t else y :: insertDesc x t

/-- Sort a histogram's items by count, descending, stably. -/
def sortDescByCount (h : Hist) : Hist := h.foldr insertDesc []

/-- Sequence a fallible map over a list; `none` if any element raises. -/
def optMap {α β : Type} (f : α → Option β) : List α → Option (List β)
  | [] => some []
  | a :: t => (f a).bind (fun b => (optMap f t).map (fun bs => b :: bs))

/-- `get_top_5_landcover`: take the five largest-count items, and build
`(landcover_classes[int(cls)], count, count / total * 100)` for each; a key
outside the closed legend or a zero total raises (`none`). -/
def get_top_5_landcover (h : Hist) : Option (List (String × ℚ × ℚ)) :=
  optMap (fun e => (legendLookup e.1).bind
      (fun lab => (pydiv e.2 (valsSum h)).map (fun q => (lab, e.2, q * 100))))
    ((sortDescByCount h).take 5)

/-! ## src/metrics/gbif_metrics.py -/

/-- An occurrence record, reduced to its one essential attribute: the
optional `species` field. -/
abbrev OccurrenceRecord := Option String

/-- `[occ['species'] for occ in occurrences if 'species' in occ]`. -/
def speciesList (occs : List OccurrenceRecord) : List String := occs.filterMap id

/-- The fixed record of diversity indices returned by
`get_biodiversity_indices`; log-based indices are reals, the purely
rational ones are rationals. -/
structure DiversityIndices where
  species_richness : Nat
  shannon_index : ℝ
  simpson_index : ℚ
  evenness : ℝ
  berger_parker_dominance : ℚ

/-- The all-zero indices returned for a sample with no species. -/
def zeroIndices : DiversityIndices := ⟨0, 0, 0, 0, 0⟩

/-- The index computation on a non-empty species list: `Counter` iterates the
distinct species in first-occurrence order (`dedup`), `N` is the number of
species-bearing records, `S` the number of distinct species. -/
noncomputable def indicesOfSpecies (sl : List String) : DiversityIndices :=
  if sl = [] then zeroIndices
  else
    let N : ℚ := (sl.length : ℚ)
    let S : Nat := sl.dedup.length
    let shannon : ℝ := -((sl.dedup.map
      (fun sp => (((sl.count sp : ℚ) / N : ℚ) : ℝ) *
        Real.log (((sl.count sp : ℚ) / N : ℚ) : ℝ))).sum)
    { species_richness := S
      shannon_index := shannon
      simpson_index := 1 - (sl.dedup.map (fun sp => ((sl.count sp : ℚ) / N) ^ 2)).sum
      evenness := if 1 < S then shannon / Real.log (S : ℝ) else 0
      berger_parker_dominance := ((sl.dedup.map (fun sp => sl.count sp)).foldr max 0 : ℚ) / N }

/-- `get_biodiversity_indices`: extract the species list from the records
that carry a species field, then compute the indices from it alone. -/
noncomputable def get_biodiversity_indices (occs : List OccurrenceRecord) : DiversityIndices :=
  indicesOfSpecies (speciesList occs)

/-- The fixed GBIF page size, `per_page = 300`. -/
def per_page : Nat := 300

/-- The pages actually fetched by `get_gbif_sample`'s loop: the Occurrence
Data Source is abstracted as `resp`, mapping a page index (offset divided by
the page size) to that page's record list.  `k` pages remain; a page shorter
than the page size ends the loop (`break`). -/
def fetchedPages {α : Type} (resp : Nat → List α) : Nat → Nat → List (List α)
  | 0, _ => []
  | k + 1, i =>
    let page := resp i
    if page.length < per_page then [page]
    else page :: fetchedPages resp k (i + 1)

/-- `get_gbif_sample`: fetch `n_records // per_page + 1` pages (stopping
early at a short page), concatenate, and truncate with `[:n_records]`. -/
def get_gbif_sample {α : Type} (resp : Nat → List α) (n_records : Nat) : List α :=
  ((fetchedPages resp (n_records / per_page + 1) 0).flatten).take n_records

/-! ## src/streamlit_app.py: the AOI area governor (lines 184–191)

The geometry operations (`area`, `centroid`, point `buffer`, `bounds`) are
executed by the external Raster Compute Service; here they are given their
planar idealization over exact reals.  A geometry is a polygon (vertex list)
or a disc (the buffer of a point). -/

/-- A planar geometry: polygon by vertices, or a disc. -/
inductive Geom where
  | poly (vs : List (ℝ × ℝ))
  | disc (c : ℝ × ℝ) (r : ℝ)

/-- Cross product term of the shoelace formula. -/
def cross2 (p q : ℝ × ℝ) : ℝ := p.1 * q.2 - q.1 * p.2

/-- Shoelace sum of consecutive cross terms, closing back to `p0`. -/
def shoelaceFrom (p0 : ℝ × ℝ) : List (ℝ × ℝ) → ℝ
  | [] => 0
  | [p] => cross2 p p0
  | p :: q :: rest => cross2 p q + shoelaceFrom p0 (q :: rest)

/-- Twice the signed area of a polygon. -/
def signedArea2 : List (ℝ × ℝ) → ℝ
  | [] => 0
  | p :: rest => shoelaceFrom p (p :: rest)

/-- Planar area of a geometry, in square meters. -/
noncomputable def Geom.area : Geom → ℝ
  | .poly vs => |signedArea2 vs| / 2
  | .disc _ r => Real.pi * r ^ 2

/-- The accumulated numerator sums of the polygon centroid formula. -/
def centroidSumFrom (p0 : ℝ × ℝ) : List (ℝ × ℝ) → ℝ × ℝ
  | [] => (0, 0)
  | [p] => ((p.1 + p0.1) * cross2 p p0, (p.2 + p0.2) * cross2 p p0)
  | p :: q :: rest =>
    ((p.1 + q.1) * cross2 p q + (centroidSumFrom p0 (q :: rest)).1,
     (p.2 + q.2) * cross2 p q + (centroidSumFrom p0 (q :: rest)).2)

/-- Planar centroid of a geometry. -/
noncomputable def Geom.centroid : Geom → ℝ × ℝ
  | .poly [] => (0, 0)
  | .poly (p :: rest) =>
    let a2 := signedArea2 (p :: rest)
    ((centroidSumFrom p (p :: rest)).1 / (3 * a2),
     (centroidSumFrom p (p :: rest)).2 / (3 * a2))
  | .disc c _ => c

/-- Axis-aligned bounding box, as a counterclockwise quadrilateral. -/
noncomputable def Geom.bounds : Geom → Geom
  | .poly [] => .poly []
  | .poly (p :: rest) =>
    let xs := (p :: rest).map Prod.fst
    let ys := (p :: rest).map Prod.snd
    let x0 := xs.foldr min p.1
    let x1 := xs.foldr max p.1
    let y0 := ys.foldr min p.2
    let y1 := ys.foldr max p.2
    .poly [(x0, y0), (x1, y0), (x1, y1), (x0, y1)]
  | .disc c r =>
    .poly [(c.1 - r, c.2 - r), (c.1 + r, c.2 - r), (c.1 + r, c.2 + r), (c.1 - r, c.2 + r)]

/-- The axis-aligned square of side `s` centered at `c`; the spec's
description of the substitute region is compared against this shape. -/
noncomputable def axisSquare (c : ℝ × ℝ) (s : ℝ) : Geom :=
  .poly [(c.1 - s / 2, c.2 - s / 2), (c.1 + s / 2, c.2 - s / 2),
         (c.1 + s / 2, c.2 + s / 2), (c.1 - s / 2, c.2 + s / 2)]

/-- The area-limit block of `streamlit_app.py` (lines 184–191): compute the
area in km²; if it exceeds the ceiling, replace the AOI by
`centroid.buffer(side_m / 2).bounds()` with `side_m = sqrt(max_km2 * 1e6)`;
otherwise keep the AOI. -/
noncomputable def enforce_area_limit (aoi : Geom) (maxKm2 : ℝ) : Geom :=
  let area_km2 := aoi.area / 1000000
  if maxKm2 < area_km2 then
    let side_m := Real.sqrt (maxKm2 * 1000000)
    (Geom.disc aoi.centroid (side_m / 2)).bounds
  else aoi

/-! ## src/streamlit_app.py: the NDVI rating block (lines 379–392) -/

/-- `ndvi_rating.get(str(r), 0)` for the string-keyed rating histogram. -/
def ratingGetD (h : List (String × ℚ)) (k : String) : ℚ := (alookup k h).getD 0

/-- The NDVI rating block: `total_pix = sum(values)`,
`bad = get("1",0) + get("2",0)`, then
`bad / total_pix * 100` (an unguarded division — `none` when the total is 0)
and `bad * scale^2 / 10^4` hectares. -/
def ndvi_rating_block (h : List (String × ℚ)) (scale : ℚ) :
    Option (ℚ × ℚ) :=
  let total_pix := (h.map Prod.snd).sum
  let bad := ratingGetD h "1" + ratingGetD h "2"
  (pydiv bad total_pix).map (fun q => (q * 100, bad * scale ^ 2 / 10 ^ 4))

/-- Modelled from the spec: `summarize_ratings` as a whole is not in the
source (the live code only computes the degraded percentage), so its
per-rating percentage `count / total · 100` follows the spec's words. -/
def pct_of (count total : ℚ) : ℚ := count / total * 100

/-! ## Spec-side formulas, written from the specification's words,
to be compared with the embedded code. -/

/-- The Shannon formula exactly as the spec states it: `-Σ p·ln(p)` over
classes with count > 0, where `p = count/total`. -/
noncomputable def shannon_spec (h : Hist) : ℝ :=
  -(((h.map Prod.snd).filter (fun c => decide (0 < c))).map
    (fun c => (Rat.cast (c / valsSum h) : ℝ) *
      Real.log (Rat.cast (c / valsSum h)))).sum

/-- The Simpson formula as the spec states it: `1 - Σ p²`. -/
def simpson_spec (h : Hist) : ℚ :=
  1 - ((h.map Prod.snd).map (fun c => (c / valsSum h) ^ 2)).sum

/-! ## Concrete inputs used by witnesses and counterexamples -/

/-- The spec's example scenario histogram, with the string keys that the
raster service actually delivers. -/
def exHist : Hist := [(PyKey.s "10", 700), (PyKey.s "40", 300)]

/-- The same counts under integer keys. -/
def exHistInt : Hist := [(PyKey.i 10, 700), (PyKey.i 40, 300)]

/-- A histogram whose three recorded classes include one with a zero count. -/
def exHist3 : Hist := [(PyKey.s "10", 1), (PyKey.s "20", 1), (PyKey.s "30", 0)]

/-- A histogram carrying a zero-count class outside both habitat partitions. -/
def exHist15 : Hist := [(PyKey.s "10", 1), (PyKey.s "15", 0)]

/-- A legend-keyed histogram whose total count is zero. -/
def exHistZero : Hist := [(PyKey.s "10", 0)]

/-- The all-zero five-rating histogram: an AOI with no forest pixels. -/
def exRatingZero : List (String × ℚ) :=
  [("1", 0), ("2", 0), ("3", 0), ("4", 0), ("5", 0)]

/-- A 2 km × 1 km axis-aligned rectangle (coordinates in meters). -/
def exRect : Geom := Geom.poly [(0, 0), (2000, 0), (2000, 1000), (0, 1000)]

/-- A unit square polygon of side 1000 m. -/
def exUnitSq : Geom := Geom.poly [(0, 0), (1000, 0), (1000, 1000), (0, 1000)]

/-! ## Helper lemmas -/

theorem pydiv_of_ne {a b : ℚ} (hb : b ≠ 0) : pydiv a b = some (a / b) := by
  simp [pydiv, hb]

theorem pydiv_zero (a : ℚ) : pydiv a 0 = none := rfl

theorem proportions_of_ne {h : Hist} (hT : valsSum h ≠ 0) :
    proportions h = some ((h.map Prod.snd).map (fun c => c / valsSum h)) := by
  unfold proportions
  induction h.map Prod.snd with
  | nil => rfl
  | cons c t ih => rw [List.foldr_cons, ih, pydiv_of_ne hT]; rfl

theorem proportions_none {h : Hist} (hne : h ≠ []) (hT : valsSum h = 0) :
    proportions h = none := by
  unfold proportions
  have : h.map Prod.snd ≠ [] := by simpa using hne
  obtain ⟨c, t, he⟩ := List.exists_cons_of_ne_nil this
  rw [he, List.foldr_cons, hT, pydiv_zero, Option.none_bind]

theorem shannon_eq_spec {h : Hist} (hT : 0 < valsSum h) :
    get_shannon_index h = some (shannon_spec h) := by
  rw [get_shannon_index, proportions_of_ne (ne_of_gt hT), Option.map_some']
  have hfil : ((h.map Prod.snd).map (fun c => c / valsSum h)).filter
        (fun p => decide (0 < p)) =
      ((h.map Prod.snd).filter (fun c => decide (0 < c))).map
        (fun c => c / valsSum h) := by
    rw [List.filter_map]
    congr 1
    apply List.filter_congr
    intro c _
    simp only [Function.comp_apply, decide_eq_decide]
    constructor
    · intro hc
      by_contra hc0
      push_neg at hc0
      have hle : c / valsSum h ≤ 0 := div_nonpos_of_nonpos_of_nonneg hc0 (le_of_lt hT)
      exact absurd hc (not_lt.mpr hle)
    · intro hc
      exact div_pos hc hT
  rw [hfil, shannon_spec, List.map_map]
  rfl

theorem simpson_eq_spec {h : Hist} (hT : valsSum h ≠ 0) :
    get_simpson_index h = some (simpson_spec h) := by
  rw [get_simpson_index, proportions_of_ne hT, Option.map_some']
  rw [simpson_spec, List.map_map]
  rfl

theorem evenness_eq (h : Hist) :
    get_evenness_index h = (get_shannon_index h).map
      (fun sh => if 1 < h.length then sh / Real.log (h.length : ℝ) else 0) := rfl

theorem evenness_of_pos {h : Hist} (hT : 0 < valsSum h) :
    get_evenness_index h =
      some (if 1 < h.length then shannon_spec h / Real.log (h.length : ℝ) else 0) := by
  rw [evenness_eq, shannon_eq_spec hT, Option.map_some']

/-! ### Association-list sums (for the habitat fractions) -/

/-- The natural classes, in the string key form the code looks up. -/
def naturalKeys : List PyKey := natural_classes.map (fun cls => PyKey.s (toString cls))

/-- The anthropogenic classes, in the string key form the code looks up. -/
def anthroKeys : List PyKey := anthropogenic_classes.map (fun cls => PyKey.s (toString cls))

/-- All class keys belonging to either habitat partition. -/
def unionKeys : List PyKey := naturalKeys ++ anthroKeys

theorem sum_map_add {α : Type} (l : List α) (f g : α → ℚ) :
    (l.map (fun x => f x + g x)).sum = (l.map f).sum + (l.map g).sum := by
  induction l with
  | nil => simp
  | cons a t ih => simp [ih]; ring

theorem sum_map_zero_iff {α : Type} {l : List α} {f : α → ℚ}
    (hf : ∀ a ∈ l, 0 ≤ f a) : (l.map f).sum = 0 ↔ ∀ a ∈ l, f a = 0 := by
  induction l with
  | nil => simp
  | cons a t ih =>
    have ha : 0 ≤ f a := hf a (List.mem_cons_self a t)
    have ht : ∀ x ∈ t, 0 ≤ f x := fun x hx => hf x (List.mem_cons_of_mem a hx)
    have hts : 0 ≤ (t.map f).sum := List.sum_nonneg (by simpa using ht)
    constructor
    · intro h0
      rw [List.map_cons, List.sum_cons] at h0
      have h1 : f a = 0 ∧ (t.map f).sum = 0 := by constructor <;> linarith
      intro x hx
      rcases List.mem_cons.mp hx with rfl | hx
      · exact h1.1
      · exact ((ih ht).mp h1.2) x hx
    · intro hz
      rw [List.map_cons, List.sum_cons, hz a (List.mem_cons_self a t),
        (ih ht).mpr (fun x hx => hz x (List.mem_cons_of_mem a hx)), add_zero]

theorem getD_eq_ite_sum {h : Hist} (hnd : (h.map Prod.fst).Nodup) (k : PyKey) :
    getD h k = (h.map (fun e => if e.1 = k then e.2 else 0)).sum := by
  induction h with
  | nil => rfl
  | cons e t ih =>
    rw [List.map_cons, List.nodup_cons] at hnd
    by_cases hk : e.1 = k
    · have hnone : ∀ x ∈ t, ¬(x.1 = k) := by
        intro x hx hxk
        apply hnd.1
        rw [hk, ← hxk]
        exact List.mem_map_of_mem Prod.fst hx
      have ht0 : (t.map (fun e => if e.1 = k then e.2 else 0)).sum = 0 := by
        have hcg : t.map (fun e => if e.1 = k then e.2 else 0) =
            t.map (fun _ => (0 : ℚ)) :=
          List.map_congr_left (fun x hx => by simp [hnone x hx])
        simp [hcg]
      simp [getD, alookup, hk, ht0]
    · have := ih hnd.2
      simp only [getD, alookup] at this ⊢
      simp [hk, this]

theorem keylist_sum {h : Hist} (hnd : (h.map Prod.fst).Nodup) :
    ∀ {ks : List PyKey}, ks.Nodup →
      (ks.map (fun k => getD h k)).sum =
        (h.map (fun e => if e.1 ∈ ks then e.2 else 0)).sum := by
  intro ks
  induction ks with
  | nil => intro _; simp
  | cons k ks ih =>
    intro hks
    rw [List.nodup_cons] at hks
    rw [List.map_cons, List.sum_cons, ih hks.2, getD_eq_ite_sum hnd k,
      ← sum_map_add]
    congr 1
    apply List.map_congr_left
    intro e _
    by_cases h1 : e.1 = k
    · have h2 : e.1 ∉ ks := h1 ▸ hks.1
      simp [h1, h2, hks.1]
    · by_cases h2 : e.1 ∈ ks <;> simp [h1, h2]

theorem habitat_counts_eq {h : Hist} (hnd : (h.map Prod.fst).Nodup) :
    (natural_classes.map (fun cls => getD h (PyKey.s (toString cls)))).sum +
      (anthropogenic_classes.map (fun cls => getD h (PyKey.s (toString cls)))).sum =
    (h.map (fun e => if e.1 ∈ unionKeys then e.2 else 0)).sum := by
  have hn : (natural_classes.map (fun cls => getD h (PyKey.s (toString cls)))).sum =
      (naturalKeys.map (fun k => getD h k)).sum := by
    rw [naturalKeys, List.map_map]; rfl
  have ha : (anthropogenic_classes.map (fun cls => getD h (PyKey.s (toString cls)))).sum =
      (anthroKeys.map (fun k => getD h k)).sum := by
    rw [anthroKeys, List.map_map]; rfl
  have hndN : naturalKeys.Nodup := by decide
  have hndA : anthroKeys.Nodup := by decide
  have hdisj : ∀ k : PyKey, k ∈ naturalKeys → k ∈ anthroKeys → False := by decide
  rw [hn, ha, keylist_sum hnd hndN, keylist_sum hnd hndA, ← sum_map_add]
  congr 1
  apply List.map_congr_left
  intro e _
  by_cases h1 : e.1 ∈ naturalKeys
  · have h2 : e.1 ∉ anthroKeys := fun h2 => hdisj e.1 h1 h2
    have h3 : e.1 ∈ unionKeys := List.mem_append_left _ h1
    simp [h1, h2, h3]
  · by_cases h2 : e.1 ∈ anthroKeys
    · have h3 : e.1 ∈ unionKeys := List.mem_append_right _ h2
      simp [h1, h2, h3]
    · have h3 : e.1 ∉ unionKeys := by
        intro h3
        rcases List.mem_append.mp h3 with hh | hh
        · exact h1 hh
        · exact h2 hh
      simp [h1, h2, h3]

/-! ### Sorting lemmas -/

theorem mem_insertDesc {x y : PyKey × ℚ} :
    ∀ {l : Hist}, y ∈ insertDesc x l ↔ y = x ∨ y ∈ l := by
  intro l
  induction l with
  | nil => simp [insertDesc]
  | cons z t ih =>
    by_cases hz : z.2 ≤ x.2
    · simp [insertDesc, hz, or_comm, or_assoc, or_left_comm]
    · simp [insertDesc, hz, ih, or_left_comm]

theorem insertDesc_pairwise {x : PyKey × ℚ} :
    ∀ {l : Hist}, l.Pairwise (fun a b => b.2 ≤ a.2) →
      (insertDesc x l).Pairwise (fun a b => b.2 ≤ a.2) := by
  intro l
  induction l with
  | nil => intro _; simp [insertDesc]
  | cons z t ih =>
    intro hp
    rw [List.pairwise_cons] at hp
    by_cases hz : z.2 ≤ x.2
    · rw [insertDesc, if_pos hz, List.pairwise_cons]
      refine ⟨?_, List.Pairwise.cons hp.1 hp.2⟩
      intro w hw
      rcases List.mem_cons.mp hw with rfl | hw
      · exact hz
      · exact le_trans (hp.1 w hw) hz
    · rw [insertDesc, if_neg hz, List.pairwise_cons]
      refine ⟨?_, ih hp.2⟩
      intro w hw
      rcases mem_insertDesc.mp hw with rfl | hw
      · exact le_of_lt (not_le.mp hz)
      · exact hp.1 w hw

theorem sortDesc_pairwise (h : Hist) :
    (sortDescByCount h).Pairwise (fun a b => b.2 ≤ a.2) := by
  rw [sortDescByCount]
  induction h with
  | nil => simp
  | cons e t ih => exact insertDesc_pairwise ih

theorem length_insertDesc (x : PyKey × ℚ) :
    ∀ (l : Hist), (insertDesc x l).length = l.length + 1 := by
  intro l
  induction l with
  | nil => rfl
  | cons z t ih =>
    by_cases hz : z.2 ≤ x.2 <;> simp [insertDesc, hz, ih]

theorem length_sortDesc (h : Hist) : (sortDescByCount h).length = h.length := by
  rw [sortDescByCount]
  induction h with
  | nil => rfl
  | cons e t ih => rw [List.foldr_cons, length_insertDesc, ih, List.length_cons]

/-! ### optMap lemmas -/

theorem optMap_none {α β : Type} {f : α → Option β} {a : α} :
    ∀ {l : List α}, a ∈ l → f a = none → optMap f l = none := by
  intro l
  induction l with
  | nil => intro h; exact absurd h (List.not_mem_nil a)
  | cons b t ih =>
    intro ha hfa
    rcases List.mem_cons.mp ha with rfl | ha
    · simp [optMap, hfa]
    · rw [optMap, ih ha hfa]
      cases f b <;> rfl

theorem optMap_top5 {T : ℚ} (hT : T ≠ 0) :
    ∀ {l : Hist}, (∀ e ∈ l, (legendLookup e.1).isSome) →
      ∃ bs : List (String × ℚ × ℚ),
        optMap (fun e => (legendLookup e.1).bind
          (fun lab => (pydiv e.2 T).map (fun q => (lab, e.2, q * 100)))) l = some bs ∧
        bs.map (fun t => t.2.1) = l.map Prod.snd := by
  intro l
  induction l with
  | nil => exact fun _ => ⟨[], rfl, rfl⟩
  | cons e t ih =>
    intro hleg
    obtain ⟨lab, hlab⟩ := Option.isSome_iff_exists.mp (hleg e (List.mem_cons_self e t))
    obtain ⟨bs, hbs, hmap⟩ := ih (fun x hx => hleg x (List.mem_cons_of_mem e hx))
    refine ⟨(lab, e.2, e.2 / T * 100) :: bs, ?_, ?_⟩
    · rw [optMap, hbs, hlab, pydiv_of_ne hT]
      rfl
    · rw [List.map_cons, List.map_cons, hmap]

/-! ### Occurrence paging lemmas -/

theorem fetchedPages_dropLast_full {α : Type} (resp : Nat → List α) :
    ∀ (k i : Nat), ∀ p ∈ (fetchedPages resp k i).dropLast, per_page ≤ p.length := by
  intro k
  induction k with
  | zero => intro i p hp; simp [fetchedPages] at hp
  | succ k ih =>
    intro i p hp
    rw [fetchedPages] at hp
    by_cases hs : (resp i).length < per_page
    · rw [if_pos hs] at hp
      simp at hp
    · rw [if_neg hs] at hp
      rcases hrest : fetchedPages resp k (i + 1) with _ | ⟨r, rs⟩
      · rw [hrest] at hp
        simp at hp
      · rw [hrest, List.dropLast_cons₂] at hp
        rcases List.mem_cons.mp hp with rfl | hp
        · exact not_lt.mp hs
        · exact ih (i + 1) p (by rw [hrest]; exact hp)

/-! ### Geometry lemmas -/

theorem bounds_disc (c : ℝ × ℝ) (s : ℝ) :
    (Geom.disc c (s / 2)).bounds = axisSquare c s := rfl

theorem signedArea2_axisSquare (c : ℝ × ℝ) (s : ℝ) :
    signedArea2 [(c.1 - s / 2, c.2 - s / 2), (c.1 + s / 2, c.2 - s / 2),
      (c.1 + s / 2, c.2 + s / 2), (c.1 - s / 2, c.2 + s / 2)] = 2 * s ^ 2 := by
  simp only [signedArea2, shoelaceFrom, cross2]
  ring

theorem area_axisSquare (c : ℝ × ℝ) (s : ℝ) : (axisSquare c s).area = s ^ 2 := by
  rw [axisSquare, Geom.area, signedArea2_axisSquare, abs_of_nonneg (by positivity)]
  ring

theorem centroid_axisSquare (c : ℝ × ℝ) {s : ℝ} (hs : s ≠ 0) :
    (axisSquare c s).centroid = c := by
  rw [axisSquare, Geom.centroid]
  have ha2 : signedArea2 [(c.1 - s / 2, c.2 - s / 2), (c.1 + s / 2, c.2 - s / 2),
      (c.1 + s / 2, c.2 + s / 2), (c.1 - s / 2, c.2 + s / 2)] = 2 * s ^ 2 :=
    signedArea2_axisSquare c s
  rw [ha2]
  have hne : (3 : ℝ) * (2 * s ^ 2) ≠ 0 := by positivity
  apply Prod.ext
  · show (centroidSumFrom _ _).1 / (3 * (2 * s ^ 2)) = c.1
    rw [div_eq_iff hne]
    simp only [centroidSumFrom, cross2]
    ring
  · show (centroidSumFrom _ _).2 / (3 * (2 * s ^ 2)) = c.2
    rw [div_eq_iff hne]
    simp only [centroidSumFrom, cross2]
    ring

theorem enforce_of_le (aoi : Geom) (maxKm2 : ℝ) (h : aoi.area / 1000000 ≤ maxKm2) :
    enforce_area_limit aoi maxKm2 = aoi := by
  rw [enforce_area_limit, if_neg (not_lt.mpr h)]

theorem enforce_of_gt (aoi : Geom) (maxKm2 : ℝ) (h : maxKm2 < aoi.area / 1000000) :
    enforce_area_limit aoi maxKm2 =
      axisSquare aoi.centroid (Real.sqrt (maxKm2 * 1000000)) := by
  rw [enforce_area_limit, if_pos h]
  rfl

/-! ### Species-list lemmas -/

theorem speciesList_filter (occs : List OccurrenceRecord) :
    speciesList (occs.filter (fun r => r.isSome)) = speciesList occs := by
  induction occs with
  | nil => rfl
  | cons r t ih =>
    cases r with
    | none => simpa [speciesList, List.filter_cons] using ih
    | some sp => simpa [speciesList, List.filter_cons] using ih

/-! ### Habitat-fraction decomposition -/

theorem valsSum_split (h : Hist) :
    valsSum h = (h.map (fun e => if e.1 ∈ unionKeys then e.2 else 0)).sum +
      (h.map (fun e => if e.1 ∈ unionKeys then 0 else e.2)).sum := by
  rw [valsSum, ← sum_map_add]
  congr 1
  apply List.map_congr_left
  intro e _
  by_cases hu : e.1 ∈ unionKeys <;> simp [hu]

/-! ### Key-relabeling invariance -/

theorem relabel_vals (h : Hist) (f : PyKey → PyKey) :
    (h.map (fun e => (f e.1, e.2))).map Prod.snd = h.map Prod.snd := by
  rw [List.map_map]
  rfl

theorem valsSum_relabel (h : Hist) (f : PyKey → PyKey) :
    valsSum (h.map (fun e => (f e.1, e.2))) = valsSum h := by
  rw [valsSum, relabel_vals]
  rfl

theorem proportions_relabel (h : Hist) (f : PyKey → PyKey) :
    proportions (h.map (fun e => (f e.1, e.2))) = proportions h := by
  rw [proportions, proportions, relabel_vals, valsSum_relabel]

theorem alookup_str_none {h : Hist} (hint : ∀ k ∈ h.map Prod.fst, k.isInt = true)
    (v : String) : alookup (PyKey.s v) h = none := by
  induction h with
  | nil => rfl
  | cons e t ih =>
    have he : e.1.isInt = true := hint e.1 (by simp)
    have hne : ¬(e.1 = PyKey.s v) := by
      intro hk
      rw [hk] at he
      exact Bool.false_ne_true he
    rw [alookup, if_neg hne]
    exact ih (fun k hk => hint k (List.mem_cons_of_mem _ hk))

/-! ## The claims -/

/-- C6: `compute_biodiversity` builds the species counts only from records
carrying a species identifier — the indices of a sample equal the indices of
its species-bearing sub-sample — and for every sample with no species-bearing
records (the empty sample included) it returns the all-zero indices without
raising (the embedding is a total function). -/
theorem C6_no_species_zero :
    (∀ occs : List OccurrenceRecord, speciesList occs = [] →
      get_biodiversity_indices occs = zeroIndices) ∧
    (∀ occs : List OccurrenceRecord,
      get_biodiversity_indices occs =
        get_biodiversity_indices (occs.filter (fun r => r.isSome))) := by
  constructor
  · intro occs h0
    rw [get_biodiversity_indices, h0, indicesOfSpecies, if_pos rfl]
  · intro occs
    rw [get_biodiversity_indices, get_biodiversity_indices, speciesList_filter]

/-- Witness for C6 at the concrete species-free two-record sample. -/
theorem C6_no_species_zero_witness :
    speciesList [none, none] = [] ∧
      get_biodiversity_indices [none, none] = zeroIndices :=
  ⟨rfl, C6_no_species_zero.1 [none, none] rfl⟩

/-- C7: for every page-response sequence and every cap, the returned GBIF
sample has length at most the cap, and every fetched page other than the
final one has at least the full page size (a short page is only ever the
last page fetched). -/
theorem C7_paging_bounds (α : Type) (resp : Nat → List α) (n : Nat) :
    (get_gbif_sample resp n).length ≤ n ∧
    ∀ p ∈ (fetchedPages resp (n / per_page + 1) 0).dropLast,
      per_page ≤ p.length := by
  constructor
  · rw [get_gbif_sample]
    exact List.length_take_le n _
  · exact fetchedPages_dropLast_full resp _ 0

set_option maxRecDepth 8000 in
/-- Witness for C7 with two full pages of 300 records and a cap of 450. -/
theorem C7_paging_bounds_witness :
    per_page ≤ (List.replicate per_page (0 : Nat)).length ∧
    (get_gbif_sample (fun _ => List.replicate per_page (0 : Nat)) 450).length ≤ 450 :=
  ⟨(C7_paging_bounds Nat (fun _ => List.replicate per_page 0) 450).2
      (List.replicate per_page 0) (by simp [fetchedPages, per_page, List.dropLast]),
   (C7_paging_bounds Nat (fun _ => List.replicate per_page 0) 450).1⟩

/-- C10: on a histogram whose keys are all integers, both habitat fractions
are 0 — the lookups use the decimal-string form of the codes and miss — while
the Shannon, Simpson and evenness indices are computed from the values alone:
they are invariant under any relabeling of the keys. -/
theorem C10_int_keys_zero_fractions (h : Hist)
    (hint : ∀ k ∈ h.map Prod.fst, k.isInt = true) :
    get_natural_habitat_fraction h = 0 ∧
    get_anthropogenic_habitat_fraction h = 0 ∧
    ∀ f : PyKey → PyKey,
      get_shannon_index (h.map (fun e => (f e.1, e.2))) = get_shannon_index h ∧
      get_simpson_index (h.map (fun e => (f e.1, e.2))) = get_simpson_index h ∧
      get_evenness_index (h.map (fun e => (f e.1, e.2))) = get_evenness_index h := by
  have hget : ∀ cls : Nat, getD h (PyKey.s (toString cls)) = 0 := by
    intro cls
    rw [getD, alookup_str_none hint]
    rfl
  refine ⟨?_, ?_, ?_⟩
  · rw [get_natural_habitat_fraction]
    simp only [hget, List.map_const]
    by_cases ht : 0 < valsSum h <;>
      simp [ht, List.sum_replicate]
  · rw [get_anthropogenic_habitat_fraction]
    simp only [hget, List.map_const]
    by_cases ht : 0 < valsSum h <;>
      simp [ht, List.sum_replicate]
  · intro f
    refine ⟨?_, ?_, ?_⟩
    · rw [get_shannon_index, get_shannon_index, proportions_relabel]
    · rw [get_simpson_index, get_simpson_index, proportions_relabel]
    · rw [evenness_eq, evenness_eq, get_shannon_index, get_shannon_index,
        proportions_relabel, List.length_map]

/-- C4: whenever the total count is positive (the spec's caller contract for
the diversity indices), the Shannon index is `-Σ p·ln(p)` over positive-count
classes with `p = count/total`, and the Simpson index is `1 - Σ p²`; at the
example histogram with counts 700 for class "10" and 300 for class "40" the
metrics take exactly the claimed values (0.42 = 21/50, and the evenness is
the Shannon value divided by ln 2). -/
theorem C4_index_formulas :
    (∀ h : Hist, 0 < valsSum h →
      get_shannon_index h = some (shannon_spec h) ∧
      get_simpson_index h = some (simpson_spec h)) ∧
    get_natural_habitat_fraction exHist = 7 / 10 ∧
    get_anthropogenic_habitat_fraction exHist = 3 / 10 ∧
    get_shannon_index exHist =
      some (-((7 : ℝ) / 10 * Real.log (7 / 10) + 3 / 10 * Real.log (3 / 10))) ∧
    get_simpson_index exHist = some (21 / 50) ∧
    get_evenness_index exHist =
      some (-((7 : ℝ) / 10 * Real.log (7 / 10) + 3 / 10 * Real.log (3 / 10)) /
        Real.log 2) := by
  refine ⟨fun h hT => ⟨shannon_eq_spec hT, simpson_eq_spec (ne_of_gt hT)⟩,
    ?_, ?_, ?_, ?_, ?_⟩
  · simp +decide [get_natural_habitat_fraction, natural_classes, exHist,
      valsSum, getD, alookup]
    norm_num
  · simp +decide [get_anthropogenic_habitat_fraction, anthropogenic_classes,
      exHist, valsSum, getD, alookup]
    norm_num
  · rw [shannon_eq_spec (by norm_num [valsSum, exHist])]
    congr 1
    rw [shannon_spec]
    simp +decide [exHist, valsSum]
    norm_num
  · rw [simpson_eq_spec (by norm_num [valsSum, exHist])]
    rw [simpson_spec]
    simp [exHist, valsSum]
    norm_num
  · rw [evenness_of_pos (by norm_num [valsSum, exHist])]
    congr 1
    rw [if_pos (by simp [exHist])]
    rw [shannon_spec]
    simp +decide [exHist, valsSum]
    norm_num

/-- Witness for C4 discharging the positive-total hypothesis at the example
histogram. -/
theorem C4_index_formulas_witness :
    0 < valsSum exHist ∧ get_shannon_index exHist = some (shannon_spec exHist) := by
  have hpos : 0 < valsSum exHist := by norm_num [valsSum, exHist]
  exact ⟨hpos, (C4_index_formulas.1 exHist hpos).1⟩

/-- C3 counterexample: on the histogram with counts 1, 1 and 0 for classes
"10", "20" and "30", the code's evenness is ln 2 / ln 3 — the denominator
counts the zero-count class — while the claim's denominator (the number of
classes with positive count, here 2) would give ln 2 / ln 2; the two differ.
Moreover, on the non-empty zero-total histogram the call raises instead of
returning the sentinel. -/
theorem C3_counterexample :
    get_evenness_index exHist3 = some (Real.log 2 / Real.log 3) ∧
    ((exHist3.map Prod.snd).filter (fun c => decide (0 < c))).length = 2 ∧
    Real.log 2 / Real.log 3 ≠ Real.log 2 / Real.log 2 ∧
    get_evenness_index exHistZero = none := by
  refine ⟨?_, by decide, ?_, ?_⟩
  · rw [evenness_of_pos (by norm_num [valsSum, exHist3])]
    congr 1
    rw [if_pos (by simp [exHist3])]
    have hs : shannon_spec exHist3 = Real.log 2 := by
      rw [shannon_spec]
      simp +decide [exHist3, valsSum]
      norm_num
      ring
    rw [hs]
    norm_num [exHist3]
  · have h2 : (0 : ℝ) < Real.log 2 := Real.log_pos (by norm_num)
    have h3 : (0 : ℝ) < Real.log 3 := Real.log_pos (by norm_num)
    have hlt : Real.log 2 < Real.log 3 := Real.log_lt_log (by norm_num) (by norm_num)
    rw [div_self (ne_of_gt h2)]
    exact ne_of_lt ((div_lt_one h3).mpr hlt)
  · rw [evenness_eq, get_shannon_index,
      proportions_none (by simp [exHistZero]) (by simp [valsSum, exHistZero])]
    rfl

/-- C3 amended: for every histogram with positive total count, the evenness
index equals the Shannon index divided by ln of the number of recorded
entries — zero-count classes included in the denominator — when that number
is greater than 1, and the sentinel 0 otherwise. -/
theorem C3_amended (h : Hist) (hT : 0 < valsSum h) :
    get_evenness_index h =
      some (if 1 < h.length then shannon_spec h / Real.log (h.length : ℝ)
        else 0) :=
  evenness_of_pos hT

/-- Witness for C3 amended at the three-entry example histogram. -/
theorem C3_amended_witness :
    0 < valsSum exHist3 ∧
    get_evenness_index exHist3 =
      some (if 1 < exHist3.length then
        shannon_spec exHist3 / Real.log (exHist3.length : ℝ) else 0) := by
  have hpos : 0 < valsSum exHist3 := by norm_num [valsSum, exHist3]
  exact ⟨hpos, C3_amended exHist3 hpos⟩

/-- C5 counterexample: the claimed equivalence fails in both directions at
zero-count classes.  On the histogram with counts "10" ↦ 1 and "15" ↦ 0 the
two fractions sum to exactly 1 although class "15" occurs in the histogram
and is in neither partition; and on the non-empty all-natural histogram
"10" ↦ 0 the fractions sum to 0, not 1. -/
theorem C5_counterexample :
    get_natural_habitat_fraction exHist15 +
        get_anthropogenic_habitat_fraction exHist15 = 1 ∧
    PyKey.s "15" ∈ exHist15.map Prod.fst ∧
    PyKey.s "15" ∉ unionKeys ∧
    get_natural_habitat_fraction exHistZero +
        get_anthropogenic_habitat_fraction exHistZero = 0 ∧
    (∀ k ∈ exHistZero.map Prod.fst, k ∈ unionKeys) := by
  refine ⟨?_, by decide, by decide, ?_, by decide⟩
  · simp +decide [get_natural_habitat_fraction, get_anthropogenic_habitat_fraction,
      natural_classes, anthropogenic_classes, exHist15, valsSum, getD, alookup]
  · simp +decide [get_natural_habitat_fraction, get_anthropogenic_habitat_fraction,
      natural_classes, anthropogenic_classes, exHistZero, valsSum, getD, alookup]

/-- C5 amended: for every class histogram with distinct keys, non-negative
counts and positive total, the natural and anthropogenic fractions sum to at
most 1, with equality exactly when every class with a POSITIVE count belongs
to the natural or anthropogenic partition (zero-count classes are
irrelevant). -/
theorem C5_amended (h : Hist) (hnd : (h.map Prod.fst).Nodup)
    (hnn : ∀ e ∈ h, 0 ≤ e.2) (hT : 0 < valsSum h) :
    get_natural_habitat_fraction h + get_anthropogenic_habitat_fraction h ≤ 1 ∧
    (get_natural_habitat_fraction h + get_anthropogenic_habitat_fraction h = 1 ↔
      ∀ e ∈ h, 0 < e.2 → e.1 ∈ unionKeys) := by
  have hUR := valsSum_split h
  have hcounts := habitat_counts_eq hnd
  have hRnn : 0 ≤ (h.map (fun e => if e.1 ∈ unionKeys then 0 else e.2)).sum := by
    apply List.sum_nonneg
    intro x hx
    obtain ⟨e, he, rfl⟩ := List.mem_map.mp hx
    by_cases hu : e.1 ∈ unionKeys
    · simp [hu]
    · simpa [hu] using hnn e he
  have hfrac : get_natural_habitat_fraction h + get_anthropogenic_habitat_fraction h =
      (h.map (fun e => if e.1 ∈ unionKeys then e.2 else 0)).sum / valsSum h := by
    rw [get_natural_habitat_fraction, get_anthropogenic_habitat_fraction]
    simp only [if_pos hT]
    rw [div_add_div_same, hcounts]
  have hUle : (h.map (fun e => if e.1 ∈ unionKeys then e.2 else 0)).sum ≤ valsSum h := by
    rw [hUR]
    linarith
  constructor
  · rw [hfrac]
    exact (div_le_one hT).mpr hUle
  · rw [hfrac, div_eq_one_iff_eq (ne_of_gt hT)]
    have hzero : ((h.map (fun e => if e.1 ∈ unionKeys then 0 else e.2)).sum = 0 ↔
        ∀ e ∈ h, 0 < e.2 → e.1 ∈ unionKeys) := by
      have hf : ∀ e ∈ h, 0 ≤ (if e.1 ∈ unionKeys then 0 else e.2) := by
        intro e he
        by_cases hu : e.1 ∈ unionKeys
        · simp [hu]
        · simpa [hu] using hnn e he
      rw [sum_map_zero_iff hf]
      constructor
      · intro hz e he hpos
        by_contra hu
        have := hz e he
        rw [if_neg hu] at this
        exact absurd hpos (by rw [this]; exact lt_irrefl 0)
      · intro hmem e he
        by_cases hu : e.1 ∈ unionKeys
        · rw [if_pos hu]
        · rw [if_neg hu]
          by_contra hne
          have hpos : 0 < e.2 := lt_of_le_of_ne (hnn e he) (Ne.symm hne)
          exact hu (hmem e he hpos)
    constructor
    · intro heq
      apply hzero.mp
      linarith [hUR, heq]
    · intro hmem
      have := hzero.mpr hmem
      linarith [hUR, this]

/-- Witness for C5 amended at the example histogram. -/
theorem C5_amended_witness :
    get_natural_habitat_fraction exHist +
      get_anthropogenic_habitat_fraction exHist ≤ 1 :=
  (C5_amended exHist (by decide) (by decide)
    (by norm_num [valsSum, exHist])).1

/-- C8 counterexample: on the histogram with the single legend class "10"
recorded with count 0, every top-5 entry lies in the legend, yet the call
raises (division by the zero total) instead of returning labeled tuples. -/
theorem C8_counterexample :
    (((sortDescByCount exHistZero).take 5).all
      (fun e => (legendLookup e.1).isSome)) = true ∧
    get_top_5_landcover exHistZero = none := by
  constructor
  · decide
  · have htot : valsSum exHistZero = 0 := by norm_num [valsSum, exHistZero]
    rw [get_top_5_landcover]
    apply optMap_none (a := (PyKey.s "10", (0 : ℚ))) (by decide)
    rw [htot]
    simp [pydiv]

/-- C8 amended: an unknown class code among the top-5 entries makes the call
fail (`none`), and for every histogram with NONZERO TOTAL whose top-5 entries
all lie in the legend, the call succeeds and returns min 5 (number of
classes) labeled tuples sorted by count descending. -/
theorem C8_amended (h : Hist) :
    ((∃ e ∈ (sortDescByCount h).take 5, legendLookup e.1 = none) →
      get_top_5_landcover h = none) ∧
    (valsSum h ≠ 0 →
      (∀ e ∈ (sortDescByCount h).take 5, (legendLookup e.1).isSome) →
      ∃ bs : List (String × ℚ × ℚ), get_top_5_landcover h = some bs ∧
        bs.length = min 5 h.length ∧
        (bs.map (fun t => t.2.1)).Pairwise (fun a b => b ≤ a)) := by
  constructor
  · rintro ⟨e, he, hnone⟩
    rw [get_top_5_landcover]
    exact optMap_none he (by rw [hnone]; rfl)
  · intro hT hleg
    obtain ⟨bs, hbs, hmap⟩ := optMap_top5 hT hleg
    refine ⟨bs, ?_, ?_, ?_⟩
    · rw [get_top_5_landcover]
      exact hbs
    · have hlen := congrArg List.length hmap
      rw [List.length_map, List.length_map] at hlen
      rw [hlen, List.length_take, length_sortDesc]
    · have hp : (((sortDescByCount h).take 5).map Prod.snd).Pairwise
          (fun a b => b ≤ a) := by
        rw [List.pairwise_map]
        exact List.Pairwise.sublist (List.take_sublist 5 _) (sortDesc_pairwise h)
      rw [hmap]
      exact hp

/-- Witness for C8 amended: the failing side at an off-legend code, the
succeeding side at the example histogram. -/
theorem C8_amended_witness :
    get_top_5_landcover [(PyKey.s "999", (5 : ℚ))] = none ∧
    ∃ bs : List (String × ℚ × ℚ), get_top_5_landcover exHist = some bs ∧
      bs.length = min 5 exHist.length ∧
      (bs.map (fun t => t.2.1)).Pairwise (fun a b => b ≤ a) :=
  ⟨(C8_amended [(PyKey.s "999", (5 : ℚ))]).1 ⟨(PyKey.s "999", 5), by decide, by decide⟩,
   (C8_amended exHist).2 (by norm_num [valsSum, exHist]) (by decide)⟩

/-- C2 counterexample: on the 2 km × 1 km rectangle with a 1 km² ceiling the
code produces the axis-aligned square of side 1000 m (side √(max_km2) km)
centered on the centroid (1000, 500) — not the claimed side of
2·√(max_km2) km = 2000 m. -/
theorem C2_counterexample :
    enforce_area_limit exRect 1 = axisSquare (1000, 500) 1000 ∧
    (2 * Real.sqrt 1 * 1000 : ℝ) ≠ 1000 := by
  constructor
  · have harea : exRect.area = 2000000 := by
      rw [exRect, Geom.area]
      simp only [signedArea2, shoelaceFrom, cross2]
      norm_num
    rw [enforce_of_gt exRect 1 (by rw [harea]; norm_num)]
    have hc : exRect.centroid = ((1000 : ℝ), (500 : ℝ)) := by
      rw [exRect, Geom.centroid]
      simp only [signedArea2, shoelaceFrom, centroidSumFrom, cross2]
      rw [Prod.mk.injEq]
      norm_num
    have hsq : Real.sqrt (1 * 1000000) = 1000 := by
      rw [one_mul, show (1000000 : ℝ) = 1000 ^ 2 by norm_num,
        Real.sqrt_sq (by norm_num : (0 : ℝ) ≤ 1000)]
    rw [hc, hsq]
  · rw [Real.sqrt_one]
    norm_num

/-- C2 amended: an AOI whose area is within the ceiling is returned
unchanged; an oversized AOI is replaced by the axis-aligned square of side
√(max_km2)·1000 m — that is √(max_km2) km, NOT 2·√(max_km2) km — centered on
the original centroid; the substitute has exactly the ceiling area
max_km2·10⁶ m². -/
theorem C2_amended (aoi : Geom) (maxKm2 : ℝ) (hmax : 0 < maxKm2) :
    (aoi.area / 1000000 ≤ maxKm2 → enforce_area_limit aoi maxKm2 = aoi) ∧
    (maxKm2 < aoi.area / 1000000 →
      enforce_area_limit aoi maxKm2 =
        axisSquare aoi.centroid (Real.sqrt maxKm2 * 1000) ∧
      (enforce_area_limit aoi maxKm2).centroid = aoi.centroid ∧
      (enforce_area_limit aoi maxKm2).area = maxKm2 * 1000000) := by
  have hsq : Real.sqrt (maxKm2 * 1000000) = Real.sqrt maxKm2 * 1000 := by
    rw [Real.sqrt_mul (le_of_lt hmax), show (1000000 : ℝ) = 1000 ^ 2 by norm_num,
      Real.sqrt_sq (by norm_num : (0 : ℝ) ≤ 1000)]
  constructor
  · exact enforce_of_le aoi maxKm2
  · intro hgt
    have he := enforce_of_gt aoi maxKm2 hgt
    have hs_pos : 0 < Real.sqrt (maxKm2 * 1000000) :=
      Real.sqrt_pos.mpr (by positivity)
    refine ⟨by rw [he, hsq], ?_, ?_⟩
    · rw [he, centroid_axisSquare _ (ne_of_gt hs_pos)]
    · rw [he, area_axisSquare, Real.sq_sqrt (by positivity)]

/-- Witness for C2 amended: the within-ceiling branch at a 1 km² square AOI
under a 4 km² ceiling. -/
theorem C2_amended_witness :
    0 < (4 : ℝ) ∧ enforce_area_limit exUnitSq 4 = exUnitSq := by
  have harea : exUnitSq.area / 1000000 ≤ 4 := by
    rw [exUnitSq, Geom.area]
    simp only [signedArea2, shoelaceFrom, cross2]
    norm_num
  exact ⟨by norm_num, (C2_amended exUnitSq 4 (by norm_num)).1 harea⟩

/-- C9: `enforce_area_limit` is idempotent for every AOI and every positive
ceiling — in particular the substitute square produced for an oversized AOI
has area exactly the ceiling and is returned unchanged on the second
application. -/
theorem C9_idempotent (aoi : Geom) (maxKm2 : ℝ) (hmax : 0 < maxKm2) :
    enforce_area_limit (enforce_area_limit aoi maxKm2) maxKm2 =
      enforce_area_limit aoi maxKm2 := by
  by_cases hgt : maxKm2 < aoi.area / 1000000
  · rw [enforce_of_gt aoi maxKm2 hgt]
    apply enforce_of_le
    rw [area_axisSquare, Real.sq_sqrt (by positivity)]
    rw [mul_div_assoc]
    norm_num
  · rw [enforce_of_le aoi maxKm2 (not_lt.mp hgt)]
    exact enforce_of_le aoi maxKm2 (not_lt.mp hgt)

/-- Witness for C9 at the 1 km² square AOI with a 4 km² ceiling. -/
theorem C9_idempotent_witness :
    0 < (4 : ℝ) ∧
    enforce_area_limit (enforce_area_limit exUnitSq 4) 4 =
      enforce_area_limit exUnitSq 4 :=
  ⟨by norm_num, C9_idempotent exUnitSq 4 (by norm_num)⟩

/-- C1: at the all-zero five-rating histogram (an AOI with no forest pixels)
the NDVI rating block raises a division-by-zero error — modelled as `none` —
instead of the zero-valued percentages the spec defines; whenever the total
pixel count is positive, the per-rating percentages (spec-modelled
`count/total·100`) sum to exactly 100. -/
theorem C1_zero_total_raises :
    ndvi_rating_block exRatingZero 100 = none ∧
    ∀ r1 r2 r3 r4 r5 : ℚ, 0 < r1 + r2 + r3 + r4 + r5 →
      pct_of r1 (r1 + r2 + r3 + r4 + r5) + pct_of r2 (r1 + r2 + r3 + r4 + r5) +
        pct_of r3 (r1 + r2 + r3 + r4 + r5) + pct_of r4 (r1 + r2 + r3 + r4 + r5) +
        pct_of r5 (r1 + r2 + r3 + r4 + r5) = 100 := by
  constructor
  · rw [ndvi_rating_block]
    have htot : (exRatingZero.map Prod.snd).sum = 0 := by
      norm_num [exRatingZero]
    rw [htot, pydiv_zero]
    rfl
  · intro r1 r2 r3 r4 r5 hT
    have hne : r1 + r2 + r3 + r4 + r5 ≠ 0 := ne_of_gt hT
    rw [pct_of, pct_of, pct_of, pct_of, pct_of]
    field_simp
    ring

/-- Witness for C1 discharging the positive-total hypothesis at a concrete
five-rating histogram. -/
theorem C1_zero_total_raises_witness :
    0 < (10 : ℚ) + 20 + 30 + 20 + 20 ∧
    pct_of 10 (10 + 20 + 30 + 20 + 20) + pct_of 20 (10 + 20 + 30 + 20 + 20) +
      pct_of 30 (10 + 20 + 30 + 20 + 20) + pct_of 20 (10 + 20 + 30 + 20 + 20) +
      pct_of 20 (10 + 20 + 30 + 20 + 20) = 100 :=
  ⟨by norm_num, C1_zero_total_raises.2 10 20 30 20 20 (by norm_num)⟩

/-- Witness for C10 at the integer-keyed, all-natural-or-anthropogenic
example histogram. -/
theorem C10_int_keys_zero_fractions_witness :
    get_natural_habitat_fraction exHistInt = 0 ∧
    get_anthropogenic_habitat_fraction exHistInt = 0 :=
  ⟨(C10_int_keys_zero_fractions exHistInt (by decide)).1,
   (C10_int_keys_zero_fractions exHistInt (by decide)).2.1⟩

end BioDiv
